import Mathlib

/-!
Verification development for the RoBeats score calculator
(`Manual_Calculator.py`).  The scoring core is embedded shallowly:

* numeric values (Python floats / numpy float64) are modelled as `ℚ`,
  integer stat values as `ℤ`/`ℕ`;
* the `while` loops (the binary search inside `calculate_fever_score`
  and the main simulation loop of `calculate_score`) are modelled with
  explicit fuel; the fuel supplied by the wrappers is proved sufficient
  for the states the Python loops actually reach;
* fallible list indexing (`song_data[current_notes]`, which raises
  `IndexError` in Python and aborts the run) is modelled with `Option`:
  `none` means the invocation aborts with no result.

The derived scalar parameters of `calculate_score`
(`combo_value`, `fever_value`, `non_fever`, `real_fever_time`,
`combo_mul`, `base_value`, `fever_mul`; source lines 341-357) are taken
as universally quantified inputs of the simulation loop (source lines
359-385), exactly as the loop itself consumes them.
-/

/-- Source `TOTAL_ROWS = 160` (line 256). -/
def TOTAL_ROWS : ℕ := 160

/-- Source `first_100` (lines 258-261): value of the combo ramp at row
`r` for `r = 1..100`; the numpy array `first_100_values` satisfies
`first_100_values[i] = first_100 combo_mul base_value (i+1)`. -/
def first_100 (combo_mul base_value : ℚ) (r : ℕ) : ℚ :=
  base_value + (combo_mul - 1) * base_value / 100 * r

/-- Source `lookup_reference` (lines 263-266): clamp the raw stat value
to `[0, total_rows]` and index the reference array. -/
def lookup_reference (value : ℤ) (ref_array : ℕ → ℚ) (total_rows : ℕ := TOTAL_ROWS) : ℚ :=
  ref_array (max 0 (min (total_rows : ℤ) value)).toNat

/-- Source reference-array construction (lines 521-530 of the main
block): `references[name][v] = stats_table[TOTAL_ROWS - v][col]`, with
`0` appended whenever the row or the column is absent (the Python
`except` branch). -/
def references (table : List (List ℚ)) (col : ℕ) : ℕ → ℚ :=
  fun v => (((table.get? (TOTAL_ROWS - v)).bind fun row => row.get? col).getD 0)

/-- Composition of the reference-array construction with
`lookup_reference`: the `lookup(columnIndex, rawValue)` contract of the
spec (section 4.1). -/
def lookup (table : List (List ℚ)) (col : ℕ) (v : ℤ) : ℚ :=
  lookup_reference v (references table col) TOTAL_ROWS

/-- The ten-valued aggregated stat vector (the `calc_stats` dict built
in the main block, lines 532-543). -/
structure StatVector where
  perfectPoints : ℤ
  comboMultiplier : ℤ
  feverMultiplier : ℤ
  feverFillRate : ℤ
  feverTime : ℤ
  chill : ℤ
  flow : ℤ
  rush : ℤ
  beat : ℤ
  vibe : ℤ
deriving DecidableEq, Repr

/-- Dictionary access `stats.get(name, 0)` on the `calc_stats` dict:
each of the ten keys returns its stat, every other string returns the
default `0`. -/
def statsGet (sv : StatVector) : String → ℤ
  | "Perfect Points" => sv.perfectPoints
  | "Combo Multiplier" => sv.comboMultiplier
  | "Fever Multiplier" => sv.feverMultiplier
  | "Fever Fill Rate" => sv.feverFillRate
  | "Fever Time" => sv.feverTime
  | "Chill" => sv.chill
  | "Flow" => sv.flow
  | "Rush" => sv.rush
  | "Beat" => sv.beat
  | "Vibe" => sv.vibe
  | _ => 0

/-- Source `get_base_value` (lines 268-282):
`stats.get(primary)*2 + stats.get(secondary) + lookup_reference(stats["Perfect Points"], ...)`. -/
def get_base_value (primary secondary : String) (sv : StatVector) (perfRef : ℕ → ℚ) : ℚ :=
  ((statsGet sv primary : ℚ)) * 2 + ((statsGet sv secondary : ℚ))
    + lookup_reference sv.perfectPoints perfRef

/-- The five colour names (source `COLOR_INDEX` keys / spec section 4.2). -/
def colorNames : List String := [("Chill"), ("Flow"), ("Rush"), ("Beat"), ("Vibe")]

/-- Modelled from the spec (section 4.2): `colorValue(name)` reads
`StatVector[name]` if `name` is one of the five colours, else `0`.
This is the spec-side function the refinement claim C5 compares the
code against. -/
def colorValueSpec (sv : StatVector) (name : String) : ℤ :=
  if name ∈ colorNames then statsGet sv name else 0

/-- Modelled from the spec (section 4.2): the claimed base value
`2 * colorValue(PrimaryColor) + colorValue(SecondaryColor) + perfect`. -/
def baseValueSpec (primary secondary : String) (sv : StatVector) (perfRef : ℕ → ℚ) : ℚ :=
  2 * ((colorValueSpec sv primary : ℚ)) + ((colorValueSpec sv secondary : ℚ))
    + lookup_reference sv.perfectPoints perfRef

/-- The `while left < right` binary search of `calculate_fever_score`
(lines 292-298), with fuel.  Each iteration shrinks `right - left` by at
least one, so fuel `right - left` (supplied by `bsearchLoop`) makes this
extensionally equal to the Python loop. -/
def bsearchGo (times : List ℚ) (t : ℚ) : ℕ → ℕ → ℕ → ℕ
  | 0, left, _ => left
  | fuel + 1, left, right =>
    if left < right then
      let mid := (left + right) / 2
      if times.getD mid 0 > t then bsearchGo times t fuel left mid
      else bsearchGo times t fuel (mid + 1) right
    else left

/-- The binary search as run by `calculate_fever_score`. -/
def bsearchLoop (times : List ℚ) (t : ℚ) (left right : ℕ) : ℕ :=
  bsearchGo times t (right - left) left right

/-- The local `time` variable of `calculate_fever_score` (lines 285-286):
`endTime = song_data[current_notes].time + real_fever_time`. -/
def feverEndTime (song_data : List ℚ) (current_notes : ℕ) (real_fever_time : ℚ) : ℚ :=
  song_data.getD current_notes 0 + real_fever_time

/-- Note count consumed by one fever block (lines 289-299): run to the
end of the song if the last note is strictly earlier than the end time,
otherwise binary-search on `[current_notes+1, len-1]`. -/
def feverNotes (song_data : List ℚ) (current_notes total_notes : ℕ) (real_fever_time : ℚ) : ℕ :=
  if song_data.getLastD 0 < feverEndTime song_data current_notes real_fever_time
  then total_notes - current_notes
  else bsearchLoop song_data (feverEndTime song_data current_notes real_fever_time)
    (current_notes + 1) (song_data.length - 1) - current_notes

/-- Source `calculate_fever_score` (lines 284-314).  Returns `none`
when `song_data[current_notes]` is out of range (Python raises
`IndexError` and the invocation aborts). -/
def calculate_fever_score (song_data : List ℚ) (current_notes total_notes : ℕ)
    (real_fever_time fever_mul : ℚ) (fever_value : ℤ) (combo_mul base_value : ℚ) :
    Option (ℤ × ℕ) :=
  if current_notes < song_data.length then
    let notes := feverNotes song_data current_notes total_notes real_fever_time
    let new_score : ℤ :=
      if current_notes < 100 then
        if 100 - current_notes < notes then
          (∑ i in Finset.Ico current_notes 100,
              ⌊first_100 combo_mul base_value (i + 1) * fever_mul⌋)
            + ((notes : ℤ) - (100 - (current_notes : ℤ))) * fever_value
        else
          ∑ i in Finset.Ico current_notes (current_notes + notes),
            ⌊first_100 combo_mul base_value (i + 1) * fever_mul⌋
      else (notes : ℤ) * fever_value
    some (new_score, notes)
  else none

/-- Source `calculate_non_fever_score` (lines 316-332). -/
def calculate_non_fever_score (current_notes total_notes non_fever : ℕ)
    (combo_value : ℤ) (combo_mul base_value : ℚ) : ℤ × ℕ :=
  let notes := if total_notes < current_notes + non_fever
               then total_notes - current_notes else non_fever
  let new_score : ℤ :=
    if current_notes < 100 then
      if 100 - current_notes < notes then
        (∑ i in Finset.Ico current_notes 100, ⌊first_100 combo_mul base_value (i + 1)⌋)
          + ((notes : ℤ) - (100 - (current_notes : ℤ))) * combo_value
      else
        ∑ i in Finset.Ico current_notes (current_notes + notes),
          ⌊first_100 combo_mul base_value (i + 1)⌋
    else (notes : ℤ) * combo_value
  (new_score, notes)

/-- One emitted score block: `mode = true` is a Fever block, `false` a
NonFever block; the Python `scores` list is `blocks.map scoreValue`. -/
structure ScoreBlock where
  mode : Bool
  noteCount : ℕ
  scoreValue : ℤ
deriving DecidableEq, Repr

/-- The main simulation loop of `calculate_score` (lines 359-385), with
fuel.  State: consumed notes `c`, the `fever` flag and the `loop`
counter.  A fever block is adjusted by `- combo_value + fever_value`
exactly when `loop > 1`. -/
def scoreLoop (sd : List ℚ) (T nfb : ℕ) (w cm bv : ℚ) (cv fv : ℤ) (fm : ℚ) :
    ℕ → ℕ → Bool → ℕ → Option (List ScoreBlock)
  | 0, _, _, _ => none
  | fuel + 1, c, fever, loop =>
    if c < T then
      if fever then
        match calculate_fever_score sd c T w fm fv cm bv with
        | none => none
        | some (s, notes) =>
          (scoreLoop sd T nfb w cm bv cv fv fm fuel (c + notes) (!fever) (loop + 1)).map
            (fun rest => ⟨true, notes, if 1 < loop then s - cv + fv else s⟩ :: rest)
      else
        (scoreLoop sd T nfb w cm bv cv fv fm fuel
            (c + (calculate_non_fever_score c T nfb cv cm bv).2) (!fever) (loop + 1)).map
          (fun rest => ⟨false, (calculate_non_fever_score c T nfb cv cm bv).2,
                        (calculate_non_fever_score c T nfb cv cm bv).1⟩ :: rest)
    else some []

/-- Source `calculate_score` simulation (lines 359-385), parameterised
by the derived scalars of lines 341-357.  Fuel `2 * T + 2` is proved
sufficient for every state the Python loop reaches (`scoreLoop_isSome`
below); `none` models an aborted invocation. -/
def calculate_score (sd : List ℚ) (T nfb : ℕ) (w cm bv : ℚ) (cv fv : ℤ) (fm : ℚ) :
    Option (List ScoreBlock) :=
  scoreLoop sd T nfb w cm bv cv fv fm (2 * T + 2) 0 false 0

/-! ## Helper lemmas -/

theorem getD_eq_get (l : List ℚ) (i : ℕ) (h : i < l.length) :
    l.getD i 0 = l.get ⟨i, h⟩ := by
  simp [List.getD_eq_getElem?_getD, List.getElem?_eq_getElem h]

theorem sorted_getD (times : List ℚ) (hs : times.Pairwise (· ≤ ·))
    (i j : ℕ) (hij : i ≤ j) (hj : j < times.length) :
    times.getD i 0 ≤ times.getD j 0 := by
  rcases eq_or_lt_of_le hij with rfl | hlt
  · exact le_refl _
  · have hi : i < times.length := lt_trans hlt hj
    rw [getD_eq_get times i hi, getD_eq_get times j hj]
    exact List.pairwise_iff_get.mp hs ⟨i, hi⟩ ⟨j, hj⟩ hlt

theorem bsearchGo_ge (times : List ℚ) (t : ℚ) :
    ∀ fuel l r, l ≤ bsearchGo times t fuel l r := by
  intro fuel
  induction fuel with
  | zero => intro l r; exact le_refl _
  | succ fuel ih =>
    intro l r
    simp only [bsearchGo]
    split
    · split
      · exact ih l _
      · exact le_trans (by omega) (ih _ r)
    · exact le_refl _

theorem bsearchGo_le_max (times : List ℚ) (t : ℚ) :
    ∀ fuel l r, bsearchGo times t fuel l r ≤ max l r := by
  intro fuel
  induction fuel with
  | zero => intro l r; exact le_max_left _ _
  | succ fuel ih =>
    intro l r
    simp only [bsearchGo]
    split
    next hlr =>
      split
      · exact le_trans (ih l _) (by omega)
      · exact le_trans (ih _ r) (by omega)
    next hlr => omega

theorem bsearchGo_least (times : List ℚ) (t : ℚ) (hs : times.Pairwise (· ≤ ·)) :
    ∀ fuel l r K, r - l ≤ fuel → r < times.length → l ≤ K → K ≤ r →
      t < times.getD K 0 → (∀ j, l ≤ j → j < K → times.getD j 0 ≤ t) →
      bsearchGo times t fuel l r = K := by
  intro fuel
  induction fuel with
  | zero =>
    intro l r K hfuel hr hlK hKr hK hbelow
    simp only [bsearchGo]
    omega
  | succ fuel ih =>
    intro l r K hfuel hr hlK hKr hK hbelow
    simp only [bsearchGo]
    split
    next hlr =>
      split
      next hmid =>
        -- times[mid] > t, hence K ≤ mid
        have hKm : K ≤ (l + r) / 2 := by
          by_contra hcon
          exact absurd hmid (not_lt_of_le (hbelow ((l + r) / 2) (by omega) (by omega)))
        exact ih l ((l + r) / 2) K (by omega) (by omega) hlK hKm hK hbelow
      next hmid =>
        -- times[mid] ≤ t, hence mid < K
        have hmK : (l + r) / 2 + 1 ≤ K := by
          by_contra hcon
          have h1 : times.getD K 0 ≤ times.getD ((l + r) / 2) 0 :=
            sorted_getD times hs K ((l + r) / 2) (by omega) (by omega)
          exact absurd (lt_of_lt_of_le hK h1) hmid
        exact ih ((l + r) / 2 + 1) r K (by omega) hr hmK hKr hK
          (fun j hj1 hj2 => hbelow j (by omega) hj2)
    next hlr => omega

theorem bsearchGo_all_le (times : List ℚ) (t : ℚ) :
    ∀ fuel l r, r - l ≤ fuel →
      (∀ j, l ≤ j → j < r → times.getD j 0 ≤ t) →
      bsearchGo times t fuel l r = max l r := by
  intro fuel
  induction fuel with
  | zero =>
    intro l r hfuel hall
    simp only [bsearchGo]
    omega
  | succ fuel ih =>
    intro l r hfuel hall
    simp only [bsearchGo]
    split
    next hlr =>
      rw [if_neg (not_lt_of_le (hall ((l + r) / 2) (by omega) (by omega)))]
      rw [ih ((l + r) / 2 + 1) r (by omega) (fun j hj1 hj2 => hall j (by omega) hj2)]
      omega
    next hlr => omega

theorem feverNotes_pos (sd : List ℚ) (c T : ℕ) (w : ℚ) (hcT : c < T) :
    1 ≤ feverNotes sd c T w := by
  unfold feverNotes
  split
  · omega
  · have h1 := bsearchGo_ge sd (feverEndTime sd c w)
      (sd.length - 1 - (c + 1)) (c + 1) (sd.length - 1)
    unfold bsearchLoop
    omega

theorem feverNotes_add_le (sd : List ℚ) (c T : ℕ) (w : ℚ)
    (hcT : c < T) (hlen : sd.length = T) :
    c + feverNotes sd c T w ≤ T := by
  unfold feverNotes
  split
  · omega
  · have h1 := bsearchGo_le_max sd (feverEndTime sd c w)
      (sd.length - 1 - (c + 1)) (c + 1) (sd.length - 1)
    have h2 := bsearchGo_ge sd (feverEndTime sd c w)
      (sd.length - 1 - (c + 1)) (c + 1) (sd.length - 1)
    unfold bsearchLoop
    omega

theorem calculate_fever_score_eq (sd : List ℚ) (c T : ℕ) (w fm : ℚ) (fv : ℤ) (cm bv : ℚ)
    (h : c < sd.length) :
    ∃ s, calculate_fever_score sd c T w fm fv cm bv = some (s, feverNotes sd c T w) := by
  unfold calculate_fever_score
  rw [if_pos h]
  exact ⟨_, rfl⟩

theorem calculate_fever_score_isSome (sd : List ℚ) (c T : ℕ) (w fm : ℚ) (fv : ℤ) (cm bv : ℚ) :
    (calculate_fever_score sd c T w fm fv cm bv).isSome = true ↔ c < sd.length := by
  unfold calculate_fever_score
  split
  next h => simpa using h
  next h => simpa using h

theorem calculate_non_fever_score_snd (c T nfb : ℕ) (cv : ℤ) (cm bv : ℚ) :
    (calculate_non_fever_score c T nfb cv cm bv).2
      = if T < c + nfb then T - c else nfb := rfl

theorem mode_toggle (b : Bool) (j : ℕ) :
    ((!b) ^^ decide (j % 2 = 1)) = (b ^^ decide ((j + 1) % 2 = 1)) := by
  by_cases hj : j % 2 = 1
  · have h2 : (j + 1) % 2 = 0 := by omega
    simp [hj, h2]
  · have h1 : j % 2 = 0 := by omega
    have h2 : (j + 1) % 2 = 1 := by omega
    simp [h1, h2]

theorem fever_some_elim (sd : List ℚ) (c T : ℕ) (w fm : ℚ) (fv : ℤ) (cm bv : ℚ)
    (s : ℤ) (n : ℕ)
    (h : calculate_fever_score sd c T w fm fv cm bv = some (s, n)) :
    c < sd.length ∧ n = feverNotes sd c T w := by
  unfold calculate_fever_score at h
  split at h
  next hc =>
    refine ⟨hc, ?_⟩
    injection h with h1
    injection h1 with h1 h2
    exact h2.symm
  next hc => exact absurd h (by simp)

theorem scoreLoop_sum (sd : List ℚ) (T nfb : ℕ) (w cm bv : ℚ) (cv fv : ℤ) (fm : ℚ)
    (hlen : sd.length = T) :
    ∀ fuel c fever loop blocks,
      c ≤ T →
      scoreLoop sd T nfb w cm bv cv fv fm fuel c fever loop = some blocks →
      c + (blocks.map ScoreBlock.noteCount).sum = T := by
  intro fuel
  induction fuel with
  | zero =>
    intro c fever loop blocks hc h
    simp [scoreLoop] at h
  | succ fuel ih =>
    intro c fever loop blocks hc h
    simp only [scoreLoop] at h
    by_cases hcT : c < T
    · rw [if_pos hcT] at h
      cases fever with
      | true =>
        rw [if_pos rfl] at h
        rcases hcf : calculate_fever_score sd c T w fm fv cm bv with _ | ⟨s, n⟩
        · rw [hcf] at h
          exact absurd h (by simp)
        · rw [hcf] at h
          rw [Option.map_eq_some'] at h
          obtain ⟨rest, hrest, hb⟩ := h
          obtain ⟨hclen, hn⟩ := fever_some_elim sd c T w fm fv cm bv s n hcf
          have hle : c + n ≤ T := by
            have := feverNotes_add_le sd c T w hcT hlen
            omega
          have hsum := ih (c + n) false (loop + 1) rest hle hrest
          subst hb
          simp only [List.map_cons, List.sum_cons]
          omega
      | false =>
        rw [if_neg (by simp)] at h
        rw [Option.map_eq_some'] at h
        obtain ⟨rest, hrest, hb⟩ := h
        have hle : c + (calculate_non_fever_score c T nfb cv cm bv).2 ≤ T := by
          rw [calculate_non_fever_score_snd]
          split <;> omega
        have hsum := ih _ true (loop + 1) rest hle hrest
        subst hb
        simp only [List.map_cons, List.sum_cons]
        omega
    · rw [if_neg hcT] at h
      injection h with h
      subst h
      simp only [List.map_nil, List.sum_nil]
      omega

theorem scoreLoop_isSome (sd : List ℚ) (T nfb : ℕ) (w cm bv : ℚ) (cv fv : ℤ) (fm : ℚ)
    (hlen : sd.length = T) :
    ∀ fuel c fever loop,
      c ≤ T → 2 * (T - c) + (if fever then 1 else 2) ≤ fuel →
      (scoreLoop sd T nfb w cm bv cv fv fm fuel c fever loop).isSome = true := by
  intro fuel
  induction fuel with
  | zero =>
    intro c fever loop hc hfuel
    split at hfuel <;> omega
  | succ fuel ih =>
    intro c fever loop hc hfuel
    simp only [scoreLoop]
    by_cases hcT : c < T
    · rw [if_pos hcT]
      cases fever with
      | true =>
        rw [if_pos rfl]
        have hclen : c < sd.length := by omega
        obtain ⟨s, hcf⟩ := calculate_fever_score_eq sd c T w fm fv cm bv hclen
        rw [hcf]
        rw [Option.isSome_map']
        have h1 := feverNotes_pos sd c T w hcT
        have h2 := feverNotes_add_le sd c T w hcT hlen
        refine ih (c + feverNotes sd c T w) false (loop + 1) h2 ?_
        rw [show (if false = true then (1:ℕ) else 2) = 2 from rfl]
        rw [show (if true = true then (1:ℕ) else 2) = 1 from rfl] at hfuel
        omega
      | false =>
        rw [if_neg (by simp)]
        rw [Option.isSome_map']
        have hle : c + (calculate_non_fever_score c T nfb cv cm bv).2 ≤ T := by
          rw [calculate_non_fever_score_snd]
          split <;> omega
        refine ih _ true (loop + 1) hle ?_
        rw [show (if true = true then (1:ℕ) else 2) = 1 from rfl]
        rw [show (if false = true then (1:ℕ) else 2) = 2 from rfl] at hfuel
        omega
    · rw [if_neg hcT]
      simp

theorem scoreLoop_blocks (sd : List ℚ) (T nfb : ℕ) (w cm bv : ℚ) (cv fv : ℤ) (fm : ℚ) :
    ∀ fuel c fever loop blocks,
      scoreLoop sd T nfb w cm bv cv fv fm fuel c fever loop = some blocks →
      ∀ i, i < blocks.length →
        ((blocks.getD i ⟨false, 0, 0⟩).mode = (fever ^^ decide (i % 2 = 1))) ∧
        (c + ((blocks.take i).map ScoreBlock.noteCount).sum < T) ∧
        ((blocks.getD i ⟨false, 0, 0⟩).mode = true →
          ∃ s, calculate_fever_score sd
                 (c + ((blocks.take i).map ScoreBlock.noteCount).sum) T w fm fv cm bv
               = some (s, (blocks.getD i ⟨false, 0, 0⟩).noteCount) ∧
               (blocks.getD i ⟨false, 0, 0⟩).scoreValue
                 = if 1 < loop + i then s - cv + fv else s) ∧
        ((blocks.getD i ⟨false, 0, 0⟩).mode = false →
          calculate_non_fever_score
              (c + ((blocks.take i).map ScoreBlock.noteCount).sum) T nfb cv cm bv
            = ((blocks.getD i ⟨false, 0, 0⟩).scoreValue,
               (blocks.getD i ⟨false, 0, 0⟩).noteCount)) := by
  intro fuel
  induction fuel with
  | zero =>
    intro c fever loop blocks h
    simp [scoreLoop] at h
  | succ fuel ih =>
    intro c fever loop blocks h i hi
    simp only [scoreLoop] at h
    by_cases hcT : c < T
    · rw [if_pos hcT] at h
      cases fever with
      | true =>
        rw [if_pos rfl] at h
        rcases hcf : calculate_fever_score sd c T w fm fv cm bv with _ | ⟨s, n⟩
        · rw [hcf] at h
          exact absurd h (by simp)
        · rw [hcf] at h
          rw [Option.map_eq_some'] at h
          obtain ⟨rest, hrest, hb⟩ := h
          subst hb
          cases i with
          | zero =>
            refine ⟨by simp, by simpa using hcT, ?_, by simp⟩
            intro _
            exact ⟨s, by simpa using hcf, by simp⟩
          | succ j =>
            have hj : j < rest.length := by simpa using hi
            have hrec := ih (c + n) false (loop + 1) rest hrest j hj
            have hl : loop + 1 + j = loop + (j + 1) := by omega
            rw [hl] at hrec
            simp only [List.getD_cons_succ, List.take_succ_cons, List.map_cons, List.sum_cons,
              ← Nat.add_assoc]
            refine ⟨?_, hrec.2.1, hrec.2.2.1, hrec.2.2.2⟩
            rw [hrec.1]
            exact mode_toggle true j
      | false =>
        rw [if_neg (by simp)] at h
        rw [Option.map_eq_some'] at h
        obtain ⟨rest, hrest, hb⟩ := h
        subst hb
        cases i with
        | zero =>
          refine ⟨by simp, by simpa using hcT, by simp, ?_⟩
          intro _
          simp
        | succ j =>
          have hj : j < rest.length := by simpa using hi
          have hrec := ih (c + (calculate_non_fever_score c T nfb cv cm bv).2)
            true (loop + 1) rest hrest j hj
          have hl : loop + 1 + j = loop + (j + 1) := by omega
          rw [hl] at hrec
          simp only [List.getD_cons_succ, List.take_succ_cons, List.map_cons, List.sum_cons,
            ← Nat.add_assoc]
          refine ⟨?_, hrec.2.1, hrec.2.2.1, hrec.2.2.2⟩
          rw [hrec.1]
          exact mode_toggle false j
    · rw [if_neg hcT] at h
      injection h with h
      subst h
      simp at hi

theorem feverNotes_of_exists (sd : List ℚ) (T pos : ℕ) (w : ℚ)
    (hs : sd.Pairwise (· ≤ ·)) (hlen : sd.length = T) (hpos : pos < T)
    (hlast : ¬ sd.getLastD 0 < feverEndTime sd pos w)
    (hex : ∃ k, pos < k ∧ k < T ∧ feverEndTime sd pos w < sd.getD k 0) :
    feverNotes sd pos T w
      = 1 + ((Finset.range T).filter
              (fun j => pos < j ∧ sd.getD j 0 ≤ feverEndTime sd pos w)).card := by
  obtain ⟨hKpos, hKT, hKt⟩ := Nat.find_spec hex
  have hmin : ∀ j, j < Nat.find hex →
      ¬ (pos < j ∧ j < T ∧ feverEndTime sd pos w < sd.getD j 0) :=
    fun j hj => Nat.find_min hex hj
  have hbs : bsearchLoop sd (feverEndTime sd pos w) (pos + 1) (sd.length - 1)
      = Nat.find hex := by
    apply bsearchGo_least sd (feverEndTime sd pos w) hs _ (pos + 1) (sd.length - 1)
      (Nat.find hex) le_rfl (by omega) (by omega) (by omega) hKt
    intro j hj1 hj2
    have h1 := hmin j hj2
    have h2 : pos < j := by omega
    have h3 : j < T := by omega
    exact le_of_not_lt (fun hcon => h1 ⟨h2, h3, hcon⟩)
  have hfilter : (Finset.range T).filter
      (fun j => pos < j ∧ sd.getD j 0 ≤ feverEndTime sd pos w)
      = Finset.Ioo pos (Nat.find hex) := by
    ext j
    simp only [Finset.mem_filter, Finset.mem_range, Finset.mem_Ioo]
    constructor
    · rintro ⟨hjT, hjpos, hjle⟩
      refine ⟨hjpos, ?_⟩
      by_contra hcon
      have hKj : Nat.find hex ≤ j := by omega
      have := sorted_getD sd hs (Nat.find hex) j hKj (by omega)
      exact absurd (lt_of_lt_of_le hKt (le_trans this hjle)) (lt_irrefl _)
    · rintro ⟨hjpos, hjK⟩
      have hjT : j < T := by omega
      refine ⟨hjT, hjpos, ?_⟩
      exact le_of_not_lt (fun hcon => hmin j hjK ⟨hjpos, hjT, hcon⟩)
  unfold feverNotes
  rw [if_neg hlast]
  rw [hbs, hfilter, Nat.card_Ioo]
  omega

theorem feverNotes_of_all (sd : List ℚ) (T pos : ℕ) (w : ℚ)
    (hlen : sd.length = T) (hpos : pos < T)
    (hlast : ¬ sd.getLastD 0 < feverEndTime sd pos w)
    (hall : ∀ k, pos < k → k < T → sd.getD k 0 ≤ feverEndTime sd pos w) :
    feverNotes sd pos T w = if pos + 1 < T then T - 1 - pos else 1 := by
  unfold feverNotes
  rw [if_neg hlast]
  unfold bsearchLoop
  rw [bsearchGo_all_le sd (feverEndTime sd pos w) (sd.length - 1 - (pos + 1))
    (pos + 1) (sd.length - 1) le_rfl ?hall2]
  case hall2 =>
    intro j hj1 hj2
    exact hall j (by omega) (by omega)
  split <;> omega

/-! ## Claim theorems -/

/-- C1 (counterexample): with timestamps `[0, 2]`, `feverWindowSeconds = 2`
and `pos = 0`, `endTime = 2` equals the last note's time exactly; the code
consumes `1` note, while the claim's characterisation
(`one plus the count of notes after pos whose time is <= endTime,
including a note whose time equals endTime exactly`) demands `2`. -/
theorem C1_counterexample :
    ([(0:ℚ), 2]).Pairwise (· ≤ ·) ∧
    ([(0:ℚ), 2]).length = 2 ∧
    ¬ ([(0:ℚ), 2].getLastD 0 < feverEndTime [(0:ℚ), 2] 0 2) ∧
    feverNotes [(0:ℚ), 2] 0 2 2
      ≠ 1 + ((Finset.range 2).filter
              (fun j => 0 < j ∧ [(0:ℚ), 2].getD j 0 ≤ feverEndTime [(0:ℚ), 2] 0 2)).card := by
  refine ⟨by decide, by decide, by norm_num [feverEndTime], ?_⟩
  have h1 : feverNotes [(0:ℚ), 2] 0 2 2 = 1 := by
    norm_num [feverNotes, feverEndTime, bsearchLoop, bsearchGo]
  have h2 : ((Finset.range 2).filter
      (fun j => 0 < j ∧ [(0:ℚ), 2].getD j 0 ≤ feverEndTime [(0:ℚ), 2] 0 2)).card = 1 := by
    simp only [show feverEndTime [(0:ℚ), 2] 0 2 = 2 from by norm_num [feverEndTime]]
    decide
  rw [h1, h2]
  omega

/-- C1 (amended): for a sorted note sequence of length `TotalNotes` and a
fever block starting at `pos < TotalNotes`, with
`endTime = NoteSequence[pos].time + feverWindowSeconds`: if the last
note's time is strictly less than `endTime` the block consumes
`TotalNotes - pos` notes; otherwise, if some index `k > pos` has time
strictly greater than `endTime`, the block consumes one plus the count
of notes after `pos` whose time is `<= endTime`; if no such index exists
(the last note's time equals `endTime` exactly) the block consumes
`TotalNotes - 1 - pos` notes when `pos + 1 < TotalNotes`, else `1`. -/
theorem C1_amended (sd : List ℚ) (T pos : ℕ) (w fm cm bv : ℚ) (fv : ℤ)
    (hs : sd.Pairwise (· ≤ ·)) (hlen : sd.length = T) (hpos : pos < T) :
    ((calculate_fever_score sd pos T w fm fv cm bv).map Prod.snd
        = some (feverNotes sd pos T w)) ∧
    (sd.getLastD 0 < feverEndTime sd pos w → feverNotes sd pos T w = T - pos) ∧
    (¬ sd.getLastD 0 < feverEndTime sd pos w →
      ((∃ k, pos < k ∧ k < T ∧ feverEndTime sd pos w < sd.getD k 0) →
        feverNotes sd pos T w
          = 1 + ((Finset.range T).filter
                  (fun j => pos < j ∧ sd.getD j 0 ≤ feverEndTime sd pos w)).card) ∧
      ((∀ k, pos < k → k < T → sd.getD k 0 ≤ feverEndTime sd pos w) →
        feverNotes sd pos T w = if pos + 1 < T then T - 1 - pos else 1)) := by
  refine ⟨?_, ?_,
    fun hlast => ⟨fun hex => feverNotes_of_exists sd T pos w hs hlen hpos hlast hex,
      fun hall => feverNotes_of_all sd T pos w hlen hpos hlast hall⟩⟩
  · obtain ⟨s, hcf⟩ := calculate_fever_score_eq sd pos T w fm fv cm bv (by omega)
    rw [hcf]
    rfl
  · intro hlt
    unfold feverNotes
    rw [if_pos hlt]

/-- C1 (witness): the spec's own example `[0,1,2,3,4]` with window `2`
starting at `pos = 0` consumes `3` notes. -/
theorem C1_witness :
    (calculate_fever_score [(0:ℚ), 1, 2, 3, 4] 0 5 2 1 20 1 10).map Prod.snd
      = some (feverNotes [(0:ℚ), 1, 2, 3, 4] 0 5 2) ∧
    feverNotes [(0:ℚ), 1, 2, 3, 4] 0 5 2 = 3 :=
  ⟨(C1_amended [(0:ℚ), 1, 2, 3, 4] 5 0 2 1 1 10 20 (by decide) (by decide) (by decide)).1,
   by norm_num [feverNotes, feverEndTime, bsearchLoop, bsearchGo]⟩

/-- C2: in every successful simulation, a fever block (odd position,
`mode = true`) records the raw `calculate_fever_score` value when it is
the first fever block (position 1) and that value `- comboValue
+ feverValue` from the second fever phase onward; non-fever blocks
record the raw `calculate_non_fever_score` value, never adjusted. -/
theorem C2_fever_adjustment (sd : List ℚ) (T nfb : ℕ) (w cm bv : ℚ) (cv fv : ℤ) (fm : ℚ)
    (blocks : List ScoreBlock)
    (h : calculate_score sd T nfb w cm bv cv fv fm = some blocks) :
    ∀ i, i < blocks.length →
      ((blocks.getD i ⟨false, 0, 0⟩).mode = true →
        ∃ s, calculate_fever_score sd
               (((blocks.take i).map ScoreBlock.noteCount).sum) T w fm fv cm bv
             = some (s, (blocks.getD i ⟨false, 0, 0⟩).noteCount) ∧
             (blocks.getD i ⟨false, 0, 0⟩).scoreValue
               = if i = 1 then s else s - cv + fv) ∧
      ((blocks.getD i ⟨false, 0, 0⟩).mode = false →
        calculate_non_fever_score
            (((blocks.take i).map ScoreBlock.noteCount).sum) T nfb cv cm bv
          = ((blocks.getD i ⟨false, 0, 0⟩).scoreValue,
             (blocks.getD i ⟨false, 0, 0⟩).noteCount)) := by
  intro i hi
  unfold calculate_score at h
  have hb := scoreLoop_blocks sd T nfb w cm bv cv fv fm (2 * T + 2) 0 false 0 blocks h i hi
  constructor
  · intro hmode
    obtain ⟨s, hs1, hs2⟩ := hb.2.2.1 hmode
    have h2 := hb.1
    rw [hmode] at h2
    have hodd : i % 2 = 1 := by
      by_contra hcon
      rw [decide_eq_false hcon] at h2
      simp at h2
    refine ⟨s, by simpa using hs1, ?_⟩
    rw [hs2]
    by_cases h1 : i = 1
    · subst h1
      norm_num
    · rw [if_pos (by omega : 1 < 0 + i), if_neg h1]
  · intro hmode
    have := hb.2.2.2 hmode
    simpa using this

/-- C2 (witness): concrete run with notes `[0,1]`, two blocks
`[⟨NonFever,1,10⟩, ⟨Fever,1,10⟩]`; the non-fever block at position 0
records the raw non-fever value. -/
theorem C2_witness :
    calculate_non_fever_score 0 2 1 10 1 10
      = ((([⟨false, 1, 10⟩, ⟨true, 1, 10⟩] : List ScoreBlock).getD 0 ⟨false, 0, 0⟩).scoreValue,
         (([⟨false, 1, 10⟩, ⟨true, 1, 10⟩] : List ScoreBlock).getD 0 ⟨false, 0, 0⟩).noteCount) :=
  (C2_fever_adjustment [(0:ℚ), 1] 2 1 1 1 10 10 20 1 [⟨false, 1, 10⟩, ⟨true, 1, 10⟩]
    (by norm_num [calculate_score, scoreLoop, calculate_fever_score, calculate_non_fever_score,
      feverNotes, feverEndTime, bsearchLoop, bsearchGo, first_100]) 0 (by decide)).2 (by decide)

/-- C3: in every successful simulation over a sorted note sequence of
length `TotalNotes`, the block note counts sum to `TotalNotes`. -/
theorem C3_conservation (sd : List ℚ) (T nfb : ℕ) (w cm bv : ℚ) (cv fv : ℤ) (fm : ℚ)
    (blocks : List ScoreBlock)
    (hs : sd.Pairwise (· ≤ ·)) (hlen : sd.length = T)
    (h : calculate_score sd T nfb w cm bv cv fv fm = some blocks) :
    (blocks.map ScoreBlock.noteCount).sum = T := by
  unfold calculate_score at h
  have := scoreLoop_sum sd T nfb w cm bv cv fv fm hlen (2 * T + 2) 0 false 0 blocks
    (by omega) h
  omega

/-- C3 (witness): the concrete run `[0,1]` emits blocks with note counts
summing to `2`. -/
theorem C3_witness :
    (([⟨false, 1, 10⟩, ⟨true, 1, 10⟩] : List ScoreBlock).map ScoreBlock.noteCount).sum = 2 :=
  C3_conservation [(0:ℚ), 1] 2 1 1 1 10 10 20 1 [⟨false, 1, 10⟩, ⟨true, 1, 10⟩]
    (by decide) (by decide)
    (by norm_num [calculate_score, scoreLoop, calculate_fever_score, calculate_non_fever_score,
      feverNotes, feverEndTime, bsearchLoop, bsearchGo, first_100])

/-- C4: the lookup contract: for `0 <= v <= TOTAL_ROWS` the value is
`table[TOTAL_ROWS - v][c]` when that entry exists and `0` when the row
or column is absent; `v < 0` behaves as `v = 0` and `v > TOTAL_ROWS`
behaves as `v = TOTAL_ROWS`. -/
theorem C4_lookup (table : List (List ℚ)) (c : ℕ) (v : ℤ) :
    (0 ≤ v → v ≤ 160 → ∀ row x, table.get? (160 - v.toNat) = some row → row.get? c = some x →
        lookup table c v = x) ∧
    (0 ≤ v → v ≤ 160 → ((table.get? (160 - v.toNat)).bind fun row => row.get? c) = none →
        lookup table c v = 0) ∧
    (v < 0 → lookup table c v = lookup table c 0) ∧
    (160 < v → lookup table c v = lookup table c 160) := by
  refine ⟨?_, ?_, ?_, ?_⟩
  · intro h0 h160 row x hrow hx
    simp only [lookup, lookup_reference, references, TOTAL_ROWS]
    have hcl : (max 0 (min (((160:ℕ)):ℤ) v)).toNat = v.toNat := by omega
    rw [hcl, hrow]
    simp only [Option.some_bind]
    rw [hx]
    rfl
  · intro h0 h160 hnone
    simp only [lookup, lookup_reference, references, TOTAL_ROWS]
    have hcl : (max 0 (min (((160:ℕ)):ℤ) v)).toNat = v.toNat := by omega
    rw [hcl, hnone]
    rfl
  · intro hneg
    simp only [lookup, lookup_reference, references, TOTAL_ROWS]
    have hcl : (max 0 (min (((160:ℕ)):ℤ) v)).toNat
        = (max 0 (min (((160:ℕ)):ℤ) (0:ℤ))).toNat := by omega
    rw [hcl]
  · intro hgt
    simp only [lookup, lookup_reference, references, TOTAL_ROWS]
    have hcl : (max 0 (min (((160:ℕ)):ℤ) v)).toNat
        = (max 0 (min (((160:ℕ)):ℤ) (160:ℤ))).toNat := by omega
    rw [hcl]

/-- C4 (witness): a one-row table hit at `v = 160` (row `0`), plus the
two clamping identities at `v = -3` and `v = 200`. -/
theorem C4_witness :
    lookup [[(5:ℚ)]] 0 160 = 5 ∧
    lookup [[(5:ℚ)]] 0 (-3) = lookup [[(5:ℚ)]] 0 0 ∧
    lookup [[(5:ℚ)]] 0 200 = lookup [[(5:ℚ)]] 0 160 :=
  ⟨(C4_lookup [[(5:ℚ)]] 0 160).1 (by norm_num) (by norm_num) [(5:ℚ)] 5 (by decide) (by decide),
   (C4_lookup [[(5:ℚ)]] 0 (-3)).2.2.1 (by norm_num),
   (C4_lookup [[(5:ℚ)]] 0 200).2.2.2 (by norm_num)⟩

/-- C5 (counterexample): with `PrimaryColor = "Perfect Points"` (a
non-colour stat name) and Perfect Points stat `10`, the code reads the
stat dict and yields base value `20`, while the spec formula's
`colorValue` yields `0`. -/
theorem C5_counterexample :
    get_base_value ("Perfect Points") ("") ⟨10, 0, 0, 0, 0, 0, 0, 0, 0, 0⟩ (fun _ => 0)
      ≠ baseValueSpec ("Perfect Points") ("") ⟨10, 0, 0, 0, 0, 0, 0, 0, 0, 0⟩ (fun _ => 0) := by
  have h1 : get_base_value ("Perfect Points") ("") ⟨10, 0, 0, 0, 0, 0, 0, 0, 0, 0⟩
      (fun _ => 0) = 20 := by
    norm_num [get_base_value, statsGet, lookup_reference]
    rfl
  have h2 : baseValueSpec ("Perfect Points") ("") ⟨10, 0, 0, 0, 0, 0, 0, 0, 0, 0⟩
      (fun _ => 0) = 0 := by
    unfold baseValueSpec colorValueSpec lookup_reference
    rw [if_neg (by decide), if_neg (by decide)]
    norm_num
  rw [h1, h2]
  norm_num

theorem colorValueSpec_eq_statsGet (sv : StatVector) (name : String)
    (h : name ∈ colorNames ∨ name = ("")) :
    colorValueSpec sv name = statsGet sv name := by
  rcases h with h | rfl
  · unfold colorValueSpec
    rw [if_pos h]
  · unfold colorValueSpec
    rw [if_neg (by decide)]
    rfl

/-- C5 (amended): the claimed identity
`baseValue = 2 * colorValue(Primary) + colorValue(Secondary) + perfect`
holds whenever the two colour fields are drawn from the five colour
names or empty (the domain the data model gives them); for other
strings naming one of the ten stats the code adds that stat's value
where the spec formula adds `0`. -/
theorem C5_amended (primary secondary : String) (sv : StatVector) (perfRef : ℕ → ℚ)
    (hp : primary ∈ colorNames ∨ primary = (""))
    (hsec : secondary ∈ colorNames ∨ secondary = ("")) :
    get_base_value primary secondary sv perfRef = baseValueSpec primary secondary sv perfRef := by
  unfold get_base_value baseValueSpec
  rw [colorValueSpec_eq_statsGet sv primary hp, colorValueSpec_eq_statsGet sv secondary hsec]
  ring

/-- C5 (witness): a colour primary (`Chill` with stat 3) and empty
secondary satisfy the identity. -/
theorem C5_witness :
    get_base_value ("Chill") ("") ⟨0, 0, 0, 0, 0, 3, 0, 0, 0, 0⟩ (fun _ => 0)
      = baseValueSpec ("Chill") ("") ⟨0, 0, 0, 0, 0, 3, 0, 0, 0, 0⟩ (fun _ => 0) :=
  C5_amended ("Chill") ("") ⟨0, 0, 0, 0, 0, 3, 0, 0, 0, 0⟩ (fun _ => 0)
    (Or.inl (by decide)) (Or.inr rfl)

/-- C6 (counterexample): with `nonFeverNoteBudget = 0` (possible when
the fever fill rate looks up to `0`) the first emitted block is a
non-fever block with `noteCount = 0`, violating `noteCount >= 1`. -/
theorem C6_counterexample :
    calculate_score [(0:ℚ)] 1 0 1 1 10 10 20 1
      = some [⟨false, 0, 0⟩, ⟨true, 1, 10⟩] ∧
    ¬ (1 ≤ (([⟨false, 0, 0⟩, ⟨true, 1, 10⟩] : List ScoreBlock).getD 0 ⟨false, 0, 0⟩).noteCount) := by
  constructor
  · norm_num [calculate_score, scoreLoop, calculate_fever_score, calculate_non_fever_score,
      feverNotes, feverEndTime, bsearchLoop, bsearchGo, first_100]
  · decide

/-- C6 (amended): in every successful simulation the blocks strictly
alternate mode starting with NonFever, and — provided
`nonFeverNoteBudget >= 1` — every block consumes at least one note
(fever blocks always do; a zero budget yields zero-note non-fever
blocks). -/
theorem C6_structure (sd : List ℚ) (T nfb : ℕ) (w cm bv : ℚ) (cv fv : ℤ) (fm : ℚ)
    (blocks : List ScoreBlock)
    (h : calculate_score sd T nfb w cm bv cv fv fm = some blocks) :
    (1 ≤ nfb → ∀ i, i < blocks.length → 1 ≤ (blocks.getD i ⟨false, 0, 0⟩).noteCount) ∧
    (∀ i, i + 1 < blocks.length →
      (blocks.getD i ⟨false, 0, 0⟩).mode ≠ (blocks.getD (i + 1) ⟨false, 0, 0⟩).mode) ∧
    (0 < blocks.length → (blocks.getD 0 ⟨false, 0, 0⟩).mode = false) := by
  unfold calculate_score at h
  refine ⟨?_, ?_, ?_⟩
  · intro hnfb i hi
    have hb := scoreLoop_blocks sd T nfb w cm bv cv fv fm (2 * T + 2) 0 false 0 blocks h i hi
    have hposT := hb.2.1
    cases hmode : (blocks.getD i ⟨false, 0, 0⟩).mode with
    | false =>
      have hcn := hb.2.2.2 hmode
      have h2 : (blocks.getD i ⟨false, 0, 0⟩).noteCount
          = (calculate_non_fever_score
              (0 + ((blocks.take i).map ScoreBlock.noteCount).sum) T nfb cv cm bv).2 := by
        rw [hcn]
      rw [h2, calculate_non_fever_score_snd]
      split <;> omega
    | true =>
      obtain ⟨s, hs1, _⟩ := hb.2.2.1 hmode
      obtain ⟨hclen, hn⟩ := fever_some_elim _ _ _ _ _ _ _ _ _ _ hs1
      rw [hn]
      exact feverNotes_pos _ _ _ _ (by omega)
  · intro i hi
    have h1 := (scoreLoop_blocks sd T nfb w cm bv cv fv fm (2 * T + 2) 0 false 0 blocks h
      i (by omega)).1
    have h2 := (scoreLoop_blocks sd T nfb w cm bv cv fv fm (2 * T + 2) 0 false 0 blocks h
      (i + 1) hi).1
    rw [h1, h2]
    by_cases hp : i % 2 = 1
    · rw [decide_eq_true hp, decide_eq_false (show ¬ (i + 1) % 2 = 1 by omega)]
      simp
    · rw [decide_eq_false hp, decide_eq_true (show (i + 1) % 2 = 1 by omega)]
      simp
  · intro h0
    have h1 := (scoreLoop_blocks sd T nfb w cm bv cv fv fm (2 * T + 2) 0 false 0 blocks h
      0 h0).1
    rw [h1]
    rfl

/-- C6 (witness): the `[0,1]` run with budget `1` has first block
NonFever, alternating modes, and all note counts at least `1`. -/
theorem C6_witness :
    1 ≤ (([⟨false, 1, 10⟩, ⟨true, 1, 10⟩] : List ScoreBlock).getD 0 ⟨false, 0, 0⟩).noteCount ∧
    (([⟨false, 1, 10⟩, ⟨true, 1, 10⟩] : List ScoreBlock).getD 0 ⟨false, 0, 0⟩).mode
      ≠ (([⟨false, 1, 10⟩, ⟨true, 1, 10⟩] : List ScoreBlock).getD 1 ⟨false, 0, 0⟩).mode ∧
    (([⟨false, 1, 10⟩, ⟨true, 1, 10⟩] : List ScoreBlock).getD 0 ⟨false, 0, 0⟩).mode = false := by
  have hrun : calculate_score [(0:ℚ), 1] 2 1 1 1 10 10 20 1
      = some [⟨false, 1, 10⟩, ⟨true, 1, 10⟩] := by
    norm_num [calculate_score, scoreLoop, calculate_fever_score, calculate_non_fever_score,
      feverNotes, feverEndTime, bsearchLoop, bsearchGo, first_100]
  have hC6 := C6_structure [(0:ℚ), 1] 2 1 1 1 10 10 20 1
    [⟨false, 1, 10⟩, ⟨true, 1, 10⟩] hrun
  exact ⟨hC6.1 (by omega) 0 (by decide), hC6.2.1 0 (by decide), hC6.2.2 (by decide)⟩

/-- C7 (counterexample): an unsorted note timeline shorter than
`TotalNotes` (2 notes, `TotalNotes = 5`) with budget `>= TotalNotes`
still produces a result — the engine performs no input validation and
does not fail with `InvalidInput`. -/
theorem C7_counterexample :
    ¬ ([(3:ℚ), 1].Pairwise (· ≤ ·)) ∧
    [(3:ℚ), 1].length < 5 ∧
    (calculate_score [(3:ℚ), 1] 5 5 1 1 10 10 20 1).isSome = true := by
  refine ⟨by decide, by decide, ?_⟩
  norm_num [calculate_score, scoreLoop, calculate_fever_score, calculate_non_fever_score,
    feverNotes, feverEndTime, bsearchLoop, bsearchGo, first_100, Finset.sum_Ico_succ_top]

/-- C7 (amended): the engine performs no input validation.  Whenever
`nonFeverNoteBudget >= TotalNotes >= 1` the first non-fever block
consumes the whole song and a result is returned for any timeline —
sorted or not, shorter than `TotalNotes` or not.  The engine fails
(returns no result) only when a fever block's start position falls
outside the timeline. -/
theorem C7_amended (sd : List ℚ) (T nfb : ℕ) (w cm bv : ℚ) (cv fv : ℤ) (fm : ℚ)
    (hT : 1 ≤ T) (hb : T ≤ nfb) :
    calculate_score sd T nfb w cm bv cv fv fm
      = some [⟨false, T, (calculate_non_fever_score 0 T nfb cv cm bv).1⟩] := by
  have hn : (calculate_non_fever_score 0 T nfb cv cm bv).2 = T := by
    rw [calculate_non_fever_score_snd]
    split <;> omega
  unfold calculate_score
  rw [show 2 * T + 2 = 2 * T + 1 + 1 from rfl]
  simp only [scoreLoop]
  rw [if_pos (show 0 < T by omega)]
  rw [if_neg (show ¬ (false = true) by simp)]
  rw [hn]
  rw [show (0:ℕ) + T = T from by omega]
  rw [if_neg (show ¬ T < T by omega)]
  rfl

/-- C7 (witness): the counterexample input evaluated through the
amended statement: one block of all five notes. -/
theorem C7_witness :
    calculate_score [(3:ℚ), 1] 5 5 1 1 10 10 20 1
      = some [⟨false, 5, (calculate_non_fever_score 0 5 5 10 1 10).1⟩] :=
  C7_amended [(3:ℚ), 1] 5 5 1 1 10 10 20 1 (by norm_num) (by norm_num)

/-- C8 (counterexample): `ramp[1]` is not `baseValue` in general:
with `comboMul = 2`, `baseValue = 100`, `ramp[1] = 101`. -/
theorem C8_counterexample : first_100 2 100 1 ≠ 100 := by
  norm_num [first_100]

/-- C8 (amended): `ramp[n] = baseValue + (comboMul-1)*baseValue/100*n`
for `n = 1..100`; `ramp[100] = baseValue * comboMul` exactly, and
`ramp[1] = baseValue + (comboMul-1)*baseValue/100` (not `baseValue`
unless the scaling term vanishes). -/
theorem C8_amended (cm bv : ℚ) :
    (∀ n : ℕ, 1 ≤ n → n ≤ 100 → first_100 cm bv n = bv + (cm - 1) * bv / 100 * (n : ℚ)) ∧
    first_100 cm bv 1 = bv + (cm - 1) * bv / 100 ∧
    first_100 cm bv 100 = bv * cm := by
  refine ⟨fun n h1 h2 => rfl, ?_, ?_⟩
  · unfold first_100
    push_cast
    ring
  · unfold first_100
    push_cast
    ring

/-- C8 (witness): the formula at `n = 50` and the exact top value
`ramp[100] = baseValue * comboMul` at `comboMul = 2`, `baseValue = 100`. -/
theorem C8_witness :
    first_100 2 100 50 = 100 + (2 - 1) * 100 / 100 * ((50:ℕ) : ℚ) ∧
    first_100 2 100 100 = 100 * 2 :=
  ⟨(C8_amended 2 100).1 50 (by norm_num) (by norm_num), (C8_amended 2 100).2.2⟩

/-- C9: `TotalNotes = 0` terminates immediately with an empty block
sequence, whose score values sum to `0`. -/
theorem C9_empty_song (sd : List ℚ) (nfb : ℕ) (w cm bv : ℚ) (cv fv : ℤ) (fm : ℚ) :
    calculate_score sd 0 nfb w cm bv cv fv fm = some [] ∧
    (([] : List ScoreBlock).map ScoreBlock.scoreValue).sum = 0 :=
  ⟨rfl, rfl⟩

/-- C10: for every well-formed input (sorted timeline of length
`TotalNotes >= 1`) the simulation terminates with a result — for every
`nonFeverNoteBudget`, including `0`, because each fever block consumes
at least one note. -/
theorem C10_termination (sd : List ℚ) (T nfb : ℕ) (w cm bv : ℚ) (cv fv : ℤ) (fm : ℚ)
    (hs : sd.Pairwise (· ≤ ·)) (hlen : sd.length = T) (hT : 1 ≤ T) :
    (calculate_score sd T nfb w cm bv cv fv fm).isSome = true := by
  unfold calculate_score
  apply scoreLoop_isSome sd T nfb w cm bv cv fv fm hlen (2 * T + 2) 0 false 0 (by omega)
  rw [show (if false = true then (1:ℕ) else 2) = 2 from rfl]
  omega

/-- C10 (witness): the sorted two-note song `[0,1]` with budget `0`
terminates. -/
theorem C10_witness :
    (calculate_score [(0:ℚ), 1] 2 0 1 1 10 10 20 1).isSome = true :=
  C10_termination [(0:ℚ), 1] 2 0 1 1 10 10 20 1 (by decide) (by decide) (by decide)
